import Mathlib

/-!
Shallow embedding of the graph-state engine of the `my-nextjs-app` flow
whiteboard: the zustand flow stores (`app/store/flowStore.ts` and the store
defined alongside `app/whiteboard/page.tsx`), the history store
(`app/store/historyStore.ts`), the knife-tool geometry, the connection
snapper of the block whiteboard, and the PDF-export preconditions of
`app/components/FlowToolbar.tsx`.

TypeScript `number` is embedded as `ℚ`.  Where the source takes a square
root only to compare distances against a threshold or against each other,
the embedding keeps the squared distance and compares squared values, which
is equivalent because the square root is strictly monotone on nonnegative
reals (`√d ≤ r ↔ 0 ≤ r ∧ d ≤ r·r` for `d ≥ 0`).
-/

namespace Flow

/-- Rich text format span (`RichTextFormat` in `flowStore.ts`).  The source
field `end` is a Lean keyword and is embedded as `endPos`; the `format`
string union is embedded as `String`. -/
structure RichTextFormat where
  start : ℚ
  endPos : ℚ
  format : String
  value : Option String
deriving DecidableEq

/-- The `data` record carried by a node: the fields read and written by the
stores.  `textStyle` embeds a `CSSProperties` object as property/value
pairs. -/
structure NodeData where
  label : String
  text : String
  name : String
  textStyle : List (String × String)
  fontSize : String
  fontFamily : String
  richTextFormats : List RichTextFormat
deriving DecidableEq

/-- A 2D point `{ x: number, y: number }`. -/
structure Position where
  x : ℚ
  y : ℚ
deriving DecidableEq

/-- A reactflow node as used by the stores; `width` and `height` are
measured by the renderer and may be absent (`undefined`). -/
structure Node where
  id : String
  type : String
  position : Position
  width : Option ℚ
  height : Option ℚ
  data : NodeData
deriving DecidableEq

/-- A reactflow edge. -/
structure Edge where
  id : String
  source : String
  target : String
  sourceHandle : Option String
  targetHandle : Option String
deriving DecidableEq

/-- The graph-carrying part of the zustand store state (`RFState`). -/
structure RFState where
  nodes : List Node
  edges : List Edge
deriving DecidableEq

/-- `deleteNode` (`flowStore.ts` lines 173-186, identical in `page.tsx`):
keeps every node whose id differs from `nodeId` and every edge neither of
whose endpoints equals `nodeId`. -/
def deleteNode (nodeId : String) (s : RFState) : RFState :=
  { nodes := s.nodes.filter fun node => decide (node.id ≠ nodeId)
    edges := s.edges.filter fun edge =>
      decide (edge.source ≠ nodeId) && decide (edge.target ≠ nodeId) }

/-- `updateNodeText` (`flowStore.ts` lines 117-170, identical in `page.tsx`).
Optional TypeScript parameters are embedded as `Option`; the source guards
`if (x !== undefined) updatedData.x = x`, i.e. each optional field is
overwritten exactly when provided, which is `Option.getD`. -/
def updateNodeText (nodeId text : String) (label name : Option String)
    (textStyle : Option (List (String × String)))
    (fontSize fontFamily : Option String)
    (richTextFormats : Option (List RichTextFormat))
    (nodes : List Node) : List Node :=
  nodes.map fun node =>
    if node.id = nodeId then
      { node with data :=
        { label := label.getD node.data.label
          text := text
          name := name.getD node.data.name
          textStyle := textStyle.getD node.data.textStyle
          fontSize := fontSize.getD node.data.fontSize
          fontFamily := fontFamily.getD node.data.fontFamily
          richTextFormats := richTextFormats.getD node.data.richTextFormats } }
    else node

/-- Default `data` used by the concrete sample graphs below. -/
def dData : NodeData := ⟨"", "", "", [], "14", "Canva Sans", []⟩

/-- Sample node `A` at the origin. -/
def nA : Node := ⟨"A", "textNode", ⟨0, 0⟩, none, none, dData⟩

/-- Sample node `B` at `(100, 0)`. -/
def nB : Node := ⟨"B", "textNode", ⟨100, 0⟩, none, none, dData⟩

/-- Sample edge from `A` to `B`. -/
def eAB : Edge := ⟨"e1", "A", "B", none, none⟩

/-- Sample two-node graph with one edge. -/
def gAB : RFState := ⟨[nA, nB], [eAB]⟩

/-- One history snapshot (`StateSnapshot` in `historyStore.ts`).  The source
deep-copies the live collections via `JSON.parse(JSON.stringify(...))`; in
the value semantics of the embedding a deep copy is the value itself. -/
structure StateSnapshot where
  nodes : List Node
  edges : List Edge
  timestamp : ℤ
deriving DecidableEq

/-- The live flow-store graph (the `nodes`/`edges` of `useFlowStore` as read
by `useFlowStore.getState()`). -/
structure LiveState where
  nodes : List Node
  edges : List Edge
deriving DecidableEq

/-- The history store state (`HistoryState` in `historyStore.ts`). -/
structure HistoryState where
  past : List StateSnapshot
  future : List StateSnapshot
  isSaving : Bool
deriving DecidableEq

/-- Combined system state: the live flow store plus the history store. -/
structure Sys where
  live : LiveState
  hist : HistoryState
deriving DecidableEq

/-- `saveState` (`historyStore.ts` lines 35-52): returns immediately while
`isSaving` holds; otherwise snapshots the current live graph (`now` stands
for `Date.now()`), appends it to `past` and clears `future`. -/
def saveState (now : ℤ) (s : Sys) : Sys :=
  if s.hist.isSaving then s
  else
    { s with hist :=
        { past := s.hist.past ++ [⟨s.live.nodes, s.live.edges, now⟩]
          future := []
          isSaving := s.hist.isSaving } }

/-- `undo` (`historyStore.ts` lines 55-86).  The source tests
`past.length === 0`, which matches `past.getLast? = none`.  On non-empty
`past` it pushes the current live graph onto the front of `future`, pops
the last entry of `past` (`slice(0, length - 1)` is `dropLast`) and
installs that entry as the live graph; `isSaving` is set for the duration
and cleared at the end. -/
def undo (now : ℤ) (s : Sys) : Sys :=
  match s.hist.past.getLast? with
  | none => s
  | some previousState =>
      { live := { nodes := previousState.nodes, edges := previousState.edges }
        hist :=
          { past := s.hist.past.dropLast
            future := ⟨s.live.nodes, s.live.edges, now⟩ :: s.hist.future
            isSaving := false } }

/-- `redo` (`historyStore.ts` lines 89-120): mirror of `undo` driven by the
head of `future`. -/
def redo (now : ℤ) (s : Sys) : Sys :=
  match s.hist.future with
  | [] => s
  | nextState :: rest =>
      { live := { nodes := nextState.nodes, edges := nextState.edges }
        hist :=
          { past := s.hist.past ++ [⟨s.live.nodes, s.live.edges, now⟩]
            future := rest
            isSaving := false } }

/-- `startBatchOperation` (`historyStore.ts` lines 131-133). -/
def startBatchOperation (s : Sys) : Sys :=
  { s with hist := { s.hist with isSaving := true } }

/-- `endBatchOperation` (`historyStore.ts` lines 136-139): clear `isSaving`,
then call `saveState` once. -/
def endBatchOperation (now : ℤ) (s : Sys) : Sys :=
  saveState now { s with hist := { s.hist with isSaving := false } }

/-- One step of the batch-suppression scenario: an arbitrary graph mutation
(a function on the live state; history mutations never touch the history
store) followed by a `saveState` call with timestamp `step.2`. -/
def mutateThenSave (s : Sys) (step : (LiveState → LiveState) × ℤ) : Sys :=
  saveState step.2 { s with live := step.1 s.live }

/-- Sample snapshot holding the graph `gAB`. -/
def snapAB : StateSnapshot := ⟨[nA, nB], [eAB], 0⟩

/-- Sample system state: live graph with only `nB` and no edges, one past
snapshot (`snapAB`), empty future. -/
def sysW : Sys := ⟨⟨[nB], []⟩, ⟨[snapAB], [], false⟩⟩

/-- Sample system state with empty history stacks. -/
def sysEmptyHist : Sys := ⟨⟨[nA, nB], [eAB]⟩, ⟨[], [], false⟩⟩

/-- The concrete batch mutation used against C3: drop every node. -/
def clearNodesMut : LiveState → LiveState := fun l => { l with nodes := [] }

/-- Squared form of `distanceToLineSegment` (`page.tsx` lines 248-279).  The
source returns `Math.sqrt(dx*dx + dy*dy)`; the embedding returns
`dx*dx + dy*dy`, and the comparison `distance <= radius` is made on squares
(see `distLeB`).  `param` defaults to `-1` when the segment has zero length,
exactly as in the source, so a degenerate segment yields the distance to the
single point `(x1, y1)`. -/
def distSqToLineSegment (x1 y1 x2 y2 px py : ℚ) : ℚ :=
  let A := px - x1
  let B := py - y1
  let C := x2 - x1
  let D := y2 - y1
  let dot := A * C + B * D
  let lenSq := C * C + D * D
  let param : ℚ := if lenSq ≠ 0 then dot / lenSq else -1
  let xx := if param < 0 then x1 else if param > 1 then x2 else x1 + param * C
  let yy := if param < 0 then y1 else if param > 1 then y2 else y1 + param * D
  let dx := px - xx
  let dy := py - yy
  dx * dx + dy * dy

/-- Horizontal center of a node as computed by the knife:
`position.x + (width || 0) / 2`.  In JS, `width || 0` yields `0` both for
`undefined` and for `0`, i.e. `Option.getD 0`. -/
def nodeCenterX (n : Node) : ℚ := n.position.x + n.width.getD 0 / 2

/-- Vertical center of a node: `position.y + (height || 0) / 2`. -/
def nodeCenterY (n : Node) : ℚ := n.position.y + n.height.getD 0 / 2

/-- The source comparison `distance <= radius` expressed on the squared
distance: for `d ≥ 0`, `√d ≤ r ↔ 0 ≤ r ∧ d ≤ r·r`. -/
def distLeB (dSq r : ℚ) : Bool := decide (0 ≤ r) && decide (dSq ≤ r * r)

/-- One edge of the knife scan (`deleteEdgesByPosition`, `page.tsx` lines
215-237): the edge is marked for deletion exactly when both endpoint nodes
are found (`Array.find` returns the first match, as `List.find?` does) and
the segment joining the endpoint centers passes within `radius` of
`(x, y)`. -/
def knifeHits (nodes : List Node) (x y radius : ℚ) (edge : Edge) : Bool :=
  match nodes.find? (fun node => decide (node.id = edge.source)),
        nodes.find? (fun node => decide (node.id = edge.target)) with
  | some sourceNode, some targetNode =>
      distLeB (distSqToLineSegment (nodeCenterX sourceNode) (nodeCenterY sourceNode)
        (nodeCenterX targetNode) (nodeCenterY targetNode) x y) radius
  | _, _ => false

/-- `deleteEdgesByPosition` (`page.tsx` lines 209-244): collect the ids of
the marked edges, then keep exactly the edges whose id is not in that list;
the node collection is not written. -/
def deleteEdgesByPosition (x y radius : ℚ) (s : RFState) : RFState :=
  let edgesToDelete := (s.edges.filter (knifeHits s.nodes x y radius)).map Edge.id
  { s with edges := s.edges.filter fun edge => decide (edge.id ∉ edgesToDelete) }

/-- Sample node `P` at the origin. -/
def nP : Node := ⟨"P", "textNode", ⟨0, 0⟩, none, none, dData⟩

/-- Sample node `Q` at `(10, 0)`. -/
def nQ : Node := ⟨"Q", "textNode", ⟨10, 0⟩, none, none, dData⟩

/-- Sample node `R` at `(0, 100)`. -/
def nR : Node := ⟨"R", "textNode", ⟨0, 100⟩, none, none, dData⟩

/-- Sample node `S` at `(10, 100)`. -/
def nS : Node := ⟨"S", "textNode", ⟨10, 100⟩, none, none, dData⟩

/-- Sample edge near the knife cursor of the witness. -/
def ePQ : Edge := ⟨"k1", "P", "Q", none, none⟩

/-- Sample edge far from the knife cursor of the witness. -/
def eRS : Edge := ⟨"k2", "R", "S", none, none⟩

/-- Sample edge whose target id matches no node. -/
def eDangling : Edge := ⟨"k3", "P", "ZZ", none, none⟩

/-- Sample graph for the knife witnesses. -/
def gKnife : RFState := ⟨[nP, nQ, nR, nS], [ePQ, eRS, eDangling]⟩

/-- A connection-point side on a block (`ConnectionPointPosition` in
`src/unnamed/part_007`). -/
inductive ConnectionPointPosition where
  | top
  | right
  | bottom
  | left
deriving DecidableEq

/-- A block of the block whiteboard (`src/unnamed/part_007`): its position,
plus the rendered width and height that the source reads from the DOM via
`getBoundingClientRect`; the embedding carries the measured size on the
block itself (every block is assumed rendered, i.e. has an element). -/
structure Block where
  id : String
  position : Position
  width : ℚ
  height : ℚ
deriving DecidableEq

/-- The record built by `handleMouseMove` for the nearest point: block id,
side, the point, and its distance to the cursor (the source stores the
distance, the embedding its square). -/
structure NearPoint where
  blockId : String
  pointPosition : ConnectionPointPosition
  position : Position
  distanceSq : ℚ
deriving DecidableEq

/-- The four connection points as enumerated by `handleMouseMove`: top,
right, bottom, left, computed from the block position and measured size. -/
def connectionPoints (b : Block) : List (ConnectionPointPosition × Position) :=
  [ (ConnectionPointPosition.top,
      ⟨b.position.x + b.width / 2, b.position.y⟩),
    (ConnectionPointPosition.right,
      ⟨b.position.x + b.width, b.position.y + b.height / 2⟩),
    (ConnectionPointPosition.bottom,
      ⟨b.position.x + b.width / 2, b.position.y + b.height⟩),
    (ConnectionPointPosition.left,
      ⟨b.position.x, b.position.y + b.height / 2⟩) ]

/-- Squared Euclidean distance from a point to the cursor `(x, y)`; the
source computes `Math.sqrt(Math.pow(point.x - x, 2) + Math.pow(point.y - y, 2))`
and only compares it, so the embedding keeps the square. -/
def distSqPt (p : Position) (x y : ℚ) : ℚ :=
  (p.x - x) * (p.x - x) + (p.y - y) * (p.y - y)

/-- The candidate list scanned by `handleMouseMove` while a connection drag
is active: the four connection points of every block except the drag's
source block (`if (block.id === connectionStart.blockId) return`), in block
order then side order. -/
def snapCandidates (blocks : List Block) (sourceId : String) (x y : ℚ) :
    List NearPoint :=
  (blocks.filter fun b => decide (b.id ≠ sourceId)).flatMap fun b =>
    (connectionPoints b).map fun pp => ⟨b.id, pp.1, pp.2, distSqPt pp.2 x y⟩

/-- The source comparison `distance < minDistance`, on squares;
`minDistance` starts at `Number.MAX_VALUE`, embedded as the `none`
accumulator (every distance beats it). -/
def closer (acc : Option NearPoint) (dSq : ℚ) : Prop :=
  match acc with
  | none => True
  | some c => dSq < c.distanceSq

instance (acc : Option NearPoint) (dSq : ℚ) : Decidable (closer acc dSq) :=
  match acc with
  | none => isTrue trivial
  | some c => inferInstanceAs (Decidable (dSq < c.distanceSq))

/-- The loop body of `handleMouseMove`: accept a candidate exactly when it
is closer than the current minimum and within the snap range of 50 px
(`distance < minDistance && distance < 50`; on squares `50·50 = 2500`). -/
def snapStep (acc : Option NearPoint) (cand : NearPoint) : Option NearPoint :=
  if closer acc cand.distanceSq ∧ cand.distanceSq < 2500 then some cand
  else acc

/-- The nearest snap point exposed by `handleMouseMove`
(`src/unnamed/part_007` lines 712-765): fold of `snapStep` over the
candidate list, starting with no candidate. -/
def nearestSnapPoint (blocks : List Block) (sourceId : String) (x y : ℚ) :
    Option NearPoint :=
  (snapCandidates blocks sourceId x y).foldl snapStep none

/-- Invariant of the snap fold over the candidates seen so far: `none`
exactly while no seen candidate is within range; otherwise a seen, in-range
candidate of minimal squared distance. -/
def SnapInv (seen : List NearPoint) (acc : Option NearPoint) : Prop :=
  match acc with
  | none => ∀ c ∈ seen, 2500 ≤ c.distanceSq
  | some np =>
      np ∈ seen ∧ np.distanceSq < 2500 ∧ ∀ c ∈ seen, np.distanceSq ≤ c.distanceSq

/-- Sample source block of the snap witness (skipped by the scan). -/
def blkSrc : Block := ⟨"src", ⟨1000, 1000⟩, 4, 4⟩

/-- Sample block near the cursor of the snap witness. -/
def blkB1 : Block := ⟨"b1", ⟨0, 0⟩, 4, 4⟩

/-- Sample block farther from the cursor of the snap witness. -/
def blkB2 : Block := ⟨"b2", ⟨40, 0⟩, 4, 4⟩

/-- Sample block list for the snap witness. -/
def snapBlocks : List Block := [blkSrc, blkB1, blkB2]

/-- The snap point found by the witness: top point of `b1`, at squared
distance 1 from the cursor `(2, 1)`. -/
def sampleNP : NearPoint := ⟨"b1", ConnectionPointPosition.top, ⟨2, 0⟩, 1⟩

/-- A reactflow `Connection`: nullable source and target ids plus optional
handles. -/
structure Connection where
  source : Option String
  target : Option String
  sourceHandle : Option String
  targetHandle : Option String
deriving DecidableEq

/-- JS falsiness of a `string | null | undefined` value: `null`, `undefined`
and the empty string are falsy. -/
def falsyStr : Option String → Bool
  | none => true
  | some s => decide (s = "")

/-- Modelled from the reactflow library (the repository imports `addEdge`
from `reactflow`; the library is not part of this repository): two handle
values match when they are `===`-equal or both falsy. -/
def handleMatches (a b : Option String) : Bool :=
  decide (a = b) || (falsyStr a && falsyStr b)

/-- Modelled from the reactflow library: `connectionExists` — some existing
edge has the same source and target and matching handles. -/
def connectionExists (edge : Edge) (edges : List Edge) : Bool :=
  edges.any fun el =>
    decide (el.source = edge.source) && decide (el.target = edge.target) &&
    handleMatches el.sourceHandle edge.sourceHandle &&
    handleMatches el.targetHandle edge.targetHandle

/-- Modelled from the reactflow library: `addEdge(edgeParams, edges)`.  The
store passes `{ ...connection, id: uuidv4() }`, so `isEdge(edgeParams)`
holds and the candidate edge is the passed record.  `addEdge` returns the
list unchanged when source or target is falsy or when an equivalent
connection already exists, and appends the new edge otherwise. -/
def addEdge (conn : Connection) (newId : String) (edges : List Edge) : List Edge :=
  if falsyStr conn.source || falsyStr conn.target then edges
  else
    match conn.source, conn.target with
    | some s, some t =>
        let edge : Edge := ⟨newId, s, t, conn.sourceHandle, conn.targetHandle⟩
        if connectionExists edge edges then edges else edges ++ [edge]
    | _, _ => edges

/-- `onConnect` (`flowStore.ts` lines 88-92): `addEdge` on the current edge
list with a fresh uuid as the id. -/
def onConnect (conn : Connection) (newId : String) (s : RFState) : RFState :=
  { s with edges := addEdge conn newId s.edges }

/-- Sample graph with nodes `A`, `B` and no edges yet. -/
def gEmptyEdges : RFState := ⟨[nA, nB], []⟩

/-- Incoming-edge count of a node id (`nodeConnections[id].incoming` in
`FlowToolbar.tsx`): each edge increments the counter of its target key. -/
def incomingCount (edges : List Edge) (id : String) : ℕ :=
  (edges.filter fun e => decide (e.target = id)).length

/-- Outgoing-edge count of a node id (`nodeConnections[id].outgoing`). -/
def outgoingCount (edges : List Edge) (id : String) : ℕ :=
  (edges.filter fun e => decide (e.source = id)).length

/-- The keys of the `nodeConnections` record: one per distinct node id
(`List.eraseDups` keeps first occurrences; JS object-key iteration order can
differ for integer-like keys, but `isLinearFlow` only uses the lengths of
the filtered entry lists, and `traceLinearFlow` is invoked only when exactly
one entry matches, so the order never matters). -/
def nodeIdKeys (nodes : List Node) : List String :=
  (nodes.map Node.id).eraseDups

/-- `isLinearFlow` (`FlowToolbar.tsx` lines 91-136): exactly one entry with
no incoming and one outgoing edge (start), exactly one with one incoming and
no outgoing edge (end), and the start/end/middle buckets together cover as
many entries as there are nodes. -/
def isLinearFlow (nodes : List Node) (edges : List Edge) : Bool :=
  let keys := nodeIdKeys nodes
  let startNodes := keys.filter fun id =>
    decide (incomingCount edges id = 0 ∧ outgoingCount edges id = 1)
  let endNodes := keys.filter fun id =>
    decide (incomingCount edges id = 1 ∧ outgoingCount edges id = 0)
  let middleNodes := keys.filter fun id =>
    decide (incomingCount edges id = 1 ∧ outgoingCount edges id = 1)
  decide (startNodes.length = 1) && decide (endNodes.length = 1) &&
    decide (startNodes.length + endNodes.length + middleNodes.length = nodes.length)

/-- The `while` loop of `traceLinearFlow` (`FlowToolbar.tsx` lines 184-206)
as fuel recursion: `maxIterations` starts at `allNodes.length`; each pass
appends the node found for the current id (the JS `nodeMap` keeps the last
duplicate; under unique node ids `find?` is identical), stops when the
current id has no outgoing edge, and otherwise follows the first outgoing
edge; the loop guard also stops on an empty (falsy) id. -/
def traceStep (nodes : List Node) (edges : List Edge) : ℕ → String → List Node
  | 0, _ => []
  | fuel + 1, cur =>
      if cur = "" then []
      else
        (match edges.filter fun e => decide (e.source = cur) with
          | [] =>
              match nodes.find? fun n => decide (n.id = cur) with
              | some n => [n]
              | none => []
          | e :: _ =>
              (match nodes.find? fun n => decide (n.id = cur) with
                | some n => [n]
                | none => []) ++ traceStep nodes edges fuel e.target)

/-- `traceLinearFlow` (`FlowToolbar.tsx` lines 139-209): find the start
entry (no incoming, one outgoing) and follow the chain for at most
`nodes.length` iterations. -/
def traceLinearFlow (nodes : List Node) (edges : List Edge) : List Node :=
  match (nodeIdKeys nodes).find? (fun id =>
      decide (incomingCount edges id = 0 ∧ outgoingCount edges id = 1)) with
  | none => []
  | some startId => traceStep nodes edges nodes.length startId

/-- `sortNodesByVerticalPosition` (`FlowToolbar.tsx` lines 212-219): stable
sort by ascending `position.y` (`Array.prototype.sort` is stable, with the
comparator `a.position.y - b.position.y`). -/
def sortNodesByVerticalPosition (nodes : List Node) : List Node :=
  nodes.mergeSort fun a b => decide (a.position.y ≤ b.position.y)

/-- `exportToPDF` (`FlowToolbar.tsx` lines 222-302), abstracted to the
document it produces: `none` models the blocking alert paths (graph with
edges that fails `isLinearFlow`, or an empty ordered node list) where no
document is produced; `some doc` models a produced document listing the
ordered nodes. -/
def exportToPDF (nodes : List Node) (edges : List Edge) : Option (List Node) :=
  if edges.length > 0 then
    if isLinearFlow nodes edges then
      if (traceLinearFlow nodes edges).length = 0 then none
      else some (traceLinearFlow nodes edges)
    else none
  else
    if (sortNodesByVerticalPosition nodes).length = 0 then none
    else some (sortNodesByVerticalPosition nodes)

/-- Sample node `C` of the chain-plus-cycle counterexample. -/
def nC : Node := ⟨"C", "textNode", ⟨0, 50⟩, none, none, dData⟩

/-- Sample node `D` of the chain-plus-cycle counterexample. -/
def nD : Node := ⟨"D", "textNode", ⟨0, 60⟩, none, none, dData⟩

/-- Edge `C → D` of the cycle. -/
def eCD : Edge := ⟨"e2", "C", "D", none, none⟩

/-- Edge `D → C` of the cycle. -/
def eDC : Edge := ⟨"e3", "D", "C", none, none⟩

/-- Node list of the chain-plus-cycle counterexample: chain `A → B` plus the
two-cycle `C ⇄ D`. -/
def cexNodes : List Node := [nA, nB, nC, nD]

/-- Edge list of the chain-plus-cycle counterexample. -/
def cexEdges : List Edge := [eAB, eCD, eDC]

/-- Sample node at `y = 5` for the no-edges export witness. -/
def nW1 : Node := ⟨"W1", "textNode", ⟨0, 5⟩, none, none, dData⟩

/-- Sample node at `y = 1` for the no-edges export witness. -/
def nW2 : Node := ⟨"W2", "textNode", ⟨0, 1⟩, none, none, dData⟩

end Flow

namespace Flow

/-- C1: after `deleteNode n`, the node with id `n` is absent and no edge
with source or target `n` remains; every other node and every non-incident
edge is preserved, and the result contains nothing beyond the original
graph; on a graph satisfying the data-model invariant that every edge
references live nodes, `deleteNode n` is a no-op when no node has id `n`. -/
theorem deleteNode_cascade (s : RFState) (n : String) :
    (∀ m ∈ (deleteNode n s).nodes, m.id ≠ n) ∧
    (∀ e ∈ (deleteNode n s).edges, e.source ≠ n ∧ e.target ≠ n) ∧
    (∀ m ∈ s.nodes, m.id ≠ n → m ∈ (deleteNode n s).nodes) ∧
    (∀ e ∈ s.edges, e.source ≠ n → e.target ≠ n → e ∈ (deleteNode n s).edges) ∧
    (∀ m ∈ (deleteNode n s).nodes, m ∈ s.nodes) ∧
    (∀ e ∈ (deleteNode n s).edges, e ∈ s.edges) ∧
    ((∀ e ∈ s.edges, (∃ m ∈ s.nodes, m.id = e.source) ∧ ∃ m ∈ s.nodes, m.id = e.target) →
      (∀ m ∈ s.nodes, m.id ≠ n) → deleteNode n s = s) := by
  refine ⟨?_, ?_, ?_, ?_, ?_, ?_, ?_⟩
  · intro m hm
    simp only [deleteNode, List.mem_filter, decide_eq_true_eq] at hm
    exact hm.2
  · intro e he
    simp only [deleteNode, List.mem_filter, Bool.and_eq_true, decide_eq_true_eq] at he
    exact he.2
  · intro m hm hne
    simp only [deleteNode, List.mem_filter, decide_eq_true_eq]
    exact ⟨hm, hne⟩
  · intro e he hs ht
    simp only [deleteNode, List.mem_filter, Bool.and_eq_true, decide_eq_true_eq]
    exact ⟨he, hs, ht⟩
  · intro m hm
    exact (List.mem_filter.mp hm).1
  · intro e he
    exact (List.mem_filter.mp he).1
  · intro hwf hno
    have hnodes : s.nodes.filter (fun node => decide (node.id ≠ n)) = s.nodes := by
      rw [List.filter_eq_self]
      intro m hm
      simpa using hno m hm
    have hedges : s.edges.filter
        (fun edge => decide (edge.source ≠ n) && decide (edge.target ≠ n)) = s.edges := by
      rw [List.filter_eq_self]
      intro e he
      obtain ⟨⟨ms, hms, hs⟩, ⟨mt, hmt, ht⟩⟩ := hwf e he
      simp only [Bool.and_eq_true, decide_eq_true_eq]
      exact ⟨hs ▸ hno ms hms, ht ▸ hno mt hmt⟩
    cases s
    simp only [deleteNode] at hnodes hedges ⊢
    rw [hnodes, hedges]

/-- Witness for `deleteNode_cascade` at the concrete graph `gAB`. -/
theorem deleteNode_cascade_witness :
    nB ∈ (deleteNode "A" gAB).nodes ∧ deleteNode "Z" gAB = gAB := by
  refine ⟨(deleteNode_cascade gAB "A").2.2.1 nB (by decide) (by decide), ?_⟩
  exact (deleteNode_cascade gAB "Z").2.2.2.2.2.2 (by decide) (by decide)

/-- C7: `updateNodeText` preserves the list length, leaves every node whose
id differs from the given id unchanged (position-wise), rewrites on the
matching node exactly the provided fields (each omitted optional field keeps
its previous value), and is the identity when no node has the given id. -/
theorem updateNodeText_frame (nodes : List Node) (nodeId text : String)
    (label name : Option String) (textStyle : Option (List (String × String)))
    (fontSize fontFamily : Option String)
    (richTextFormats : Option (List RichTextFormat)) :
    (updateNodeText nodeId text label name textStyle fontSize fontFamily
        richTextFormats nodes).length = nodes.length ∧
    (∀ i (hi : i < nodes.length)
        (hi' : i < (updateNodeText nodeId text label name textStyle fontSize fontFamily
          richTextFormats nodes).length),
      ((nodes.get ⟨i, hi⟩).id ≠ nodeId →
        (updateNodeText nodeId text label name textStyle fontSize fontFamily
          richTextFormats nodes).get ⟨i, hi'⟩ = nodes.get ⟨i, hi⟩) ∧
      ((nodes.get ⟨i, hi⟩).id = nodeId →
        (updateNodeText nodeId text label name textStyle fontSize fontFamily
          richTextFormats nodes).get ⟨i, hi'⟩ =
        { nodes.get ⟨i, hi⟩ with data :=
          { label := label.getD (nodes.get ⟨i, hi⟩).data.label
            text := text
            name := name.getD (nodes.get ⟨i, hi⟩).data.name
            textStyle := textStyle.getD (nodes.get ⟨i, hi⟩).data.textStyle
            fontSize := fontSize.getD (nodes.get ⟨i, hi⟩).data.fontSize
            fontFamily := fontFamily.getD (nodes.get ⟨i, hi⟩).data.fontFamily
            richTextFormats :=
              richTextFormats.getD (nodes.get ⟨i, hi⟩).data.richTextFormats } })) ∧
    ((∀ m ∈ nodes, m.id ≠ nodeId) →
      updateNodeText nodeId text label name textStyle fontSize fontFamily
        richTextFormats nodes = nodes) := by
  refine ⟨by simp [updateNodeText], ?_, ?_⟩
  · intro i hi hi'
    constructor
    · intro hne
      simp only [updateNodeText, List.get_eq_getElem, List.getElem_map]
      rw [if_neg (by simpa using hne)]
    · intro heq
      simp only [updateNodeText, List.get_eq_getElem, List.getElem_map]
      rw [if_pos (by simpa using heq)]
  · intro hall
    unfold updateNodeText
    have : ∀ m ∈ nodes,
        (if m.id = nodeId then
          { m with data :=
            { label := label.getD m.data.label
              text := text
              name := name.getD m.data.name
              textStyle := textStyle.getD m.data.textStyle
              fontSize := fontSize.getD m.data.fontSize
              fontFamily := fontFamily.getD m.data.fontFamily
              richTextFormats := richTextFormats.getD m.data.richTextFormats } }
         else m) = m := by
      intro m hm
      simp [hall m hm]
    calc nodes.map _ = nodes.map id := List.map_congr_left (by simpa using this)
      _ = nodes := List.map_id nodes

/-- Witness for `updateNodeText_frame`: updating node `A` in `[nA, nB]`
leaves `nB` (index 1) unchanged. -/
theorem updateNodeText_frame_witness :
    (updateNodeText "A" "t2" none (some "nm") none none none none
      [nA, nB]).get ⟨1, by decide⟩ = nB := by
  have h := (updateNodeText_frame [nA, nB] "A" "t2" none (some "nm") none none
    none none).2.1 1 (by decide) (by decide)
  exact h.1 (by decide)

/-- C2: whenever `past` is non-empty, `undo` followed by `redo` restores the
live graph's nodes and edges to structural equality with their values before
the `undo`.  The statement quantifies over every system state, so it covers
every state reachable by mutations interleaved with `saveState`. -/
theorem undo_redo_inverse (s : Sys) (t u : ℤ) (h : s.hist.past ≠ []) :
    (redo u (undo t s)).live.nodes = s.live.nodes ∧
    (redo u (undo t s)).live.edges = s.live.edges := by
  obtain ⟨p, a, hp⟩ := (List.eq_nil_or_concat s.hist.past).resolve_left h
  have hlast : s.hist.past.getLast? = some a := by
    rw [hp, List.concat_eq_append]; exact List.getLast?_concat ..
  simp [undo, hlast, redo]

/-- Witness for `undo_redo_inverse` at the concrete state `sysW`. -/
theorem undo_redo_inverse_witness :
    (redo 1 (undo 0 sysW)).live.nodes = sysW.live.nodes ∧
    (redo 1 (undo 0 sysW)).live.edges = sysW.live.edges :=
  undo_redo_inverse sysW 0 1 (by decide)

/-- C9: `undo` with empty `past` and `redo` with empty `future` are silent
no-ops: the whole system state (live graph, `past`, `future`) is returned
unchanged. -/
theorem history_underflow_noop (s : Sys) (t u : ℤ) :
    (s.hist.past = [] → undo t s = s) ∧ (s.hist.future = [] → redo u s = s) := by
  constructor
  · intro h
    simp [undo, h]
  · intro h
    simp [redo, h]

/-- Witness for `history_underflow_noop` at the concrete state
`sysEmptyHist`. -/
theorem history_underflow_noop_witness :
    undo 0 sysEmptyHist = sysEmptyHist ∧ redo 0 sysEmptyHist = sysEmptyHist :=
  ⟨(history_underflow_noop sysEmptyHist 0 0).1 rfl,
   (history_underflow_noop sysEmptyHist 0 0).2 rfl⟩

/-- While `isSaving` is set, a run of mutations each followed by `saveState`
leaves the history store untouched and applies the mutations to the live
graph. -/
theorem batch_suppressed (steps : List ((LiveState → LiveState) × ℤ)) (s : Sys)
    (h : s.hist.isSaving = true) :
    (steps.foldl mutateThenSave s).hist = s.hist ∧
    (steps.foldl mutateThenSave s).live = steps.foldl (fun l p => p.1 l) s.live := by
  induction steps generalizing s with
  | nil => exact ⟨rfl, rfl⟩
  | cons p ps ih =>
      have hstep : mutateThenSave s p = { s with live := p.1 s.live } := by
        simp [mutateThenSave, saveState, h]
      obtain ⟨ih1, ih2⟩ := ih { s with live := p.1 s.live } h
      simp only [List.foldl_cons, hstep]
      exact ⟨ih1, ih2⟩

/-- C3 (amended): `startBatchOperation`, then any run of mutations each
followed by a `saveState` call, then `endBatchOperation`, pushes exactly one
new snapshot onto `past` (not one per mutation) — a snapshot of the
*post-batch* live graph — and a single subsequent `undo` installs that same
post-batch graph as the live graph, rather than restoring the pre-batch
graph. -/
theorem batch_single_snapshot (s0 : Sys)
    (steps : List ((LiveState → LiveState) × ℤ)) (tEnd tU : ℤ) :
    (endBatchOperation tEnd (steps.foldl mutateThenSave (startBatchOperation s0))).hist.past
      = s0.hist.past ++
        [⟨(steps.foldl (fun l p => p.1 l) s0.live).nodes,
          (steps.foldl (fun l p => p.1 l) s0.live).edges, tEnd⟩] ∧
    (endBatchOperation tEnd (steps.foldl mutateThenSave (startBatchOperation s0))).live
      = steps.foldl (fun l p => p.1 l) s0.live ∧
    (undo tU (endBatchOperation tEnd
        (steps.foldl mutateThenSave (startBatchOperation s0)))).live
      = steps.foldl (fun l p => p.1 l) s0.live := by
  obtain ⟨hh, hl⟩ := batch_suppressed steps (startBatchOperation s0) rfl
  set s2 := steps.foldl mutateThenSave (startBatchOperation s0) with hs2
  set g := steps.foldl (fun l p => p.1 l) s0.live with hg
  have hl' : s2.live = g := by
    rw [hl]; rfl
  have hpast : s2.hist.past = s0.hist.past := by rw [hh]; rfl
  have hend : endBatchOperation tEnd s2 =
      { live := s2.live
        hist := { past := s2.hist.past ++ [⟨s2.live.nodes, s2.live.edges, tEnd⟩]
                  future := []
                  isSaving := false } } := by
    simp [endBatchOperation, saveState]
  have hsnap : (⟨s2.live.nodes, s2.live.edges, tEnd⟩ : StateSnapshot)
      = ⟨g.nodes, g.edges, tEnd⟩ := by rw [hl']
  refine ⟨?_, ?_, ?_⟩
  · rw [hend]
    simp [hpast, hsnap]
  · rw [hend, hl']
  · rw [hend]
    have hlast : (s2.hist.past ++ [(⟨s2.live.nodes, s2.live.edges, tEnd⟩ : StateSnapshot)]).getLast?
        = some ⟨s2.live.nodes, s2.live.edges, tEnd⟩ := List.getLast?_concat ..
    simp [undo, hlast, hl']

/-- C3 as frozen fails on the code: after a batch containing one mutation
that clears the node list (each mutation followed by `saveState`, as in the
claim), a single `undo` leaves the live graph at the post-batch state (no
nodes) instead of restoring the pre-batch node list. -/
theorem batch_undo_not_prebatch_cex :
    (undo 3 (endBatchOperation 2
        (mutateThenSave (startBatchOperation sysEmptyHist) (clearNodesMut, 1)))).live.nodes
      ≠ sysEmptyHist.live.nodes := by decide

/-- Under unique edge ids, an edge id appears among the marked ids exactly
when the edge itself satisfies the marking predicate. -/
theorem mem_markedIds_iff (edges : List Edge) (p : Edge → Bool)
    (hids : (edges.map Edge.id).Nodup) (e : Edge) (he : e ∈ edges) :
    e.id ∈ (edges.filter p).map Edge.id ↔ p e = true := by
  constructor
  · intro h
    obtain ⟨e2, he2, hid⟩ := List.mem_map.mp h
    have he2' := (List.mem_filter.mp he2).1
    have hpe2 := (List.mem_filter.mp he2).2
    have : e2 = e := List.inj_on_of_nodup_map hids he2' he hid
    rwa [this] at hpe2
  · intro h
    exact List.mem_map.mpr ⟨e, List.mem_filter.mpr ⟨he, h⟩, rfl⟩

/-- C4: under the data-model invariant that edge ids are unique,
`deleteEdgesByPosition x y r` leaves the nodes untouched and, for every edge
both of whose endpoints resolve to nodes, deletes the edge exactly when the
distance from `(x, y)` to the segment joining the endpoint centers is at
most `r` — on squares: `0 ≤ r` and the squared distance is at most `r·r`. -/
theorem knife_deletes_iff_within_radius (s : RFState) (x y r : ℚ)
    (hids : (s.edges.map Edge.id).Nodup) :
    (deleteEdgesByPosition x y r s).nodes = s.nodes ∧
    ∀ e ∈ s.edges, ∀ sn tn,
      s.nodes.find? (fun node => decide (node.id = e.source)) = some sn →
      s.nodes.find? (fun node => decide (node.id = e.target)) = some tn →
      (e ∈ (deleteEdgesByPosition x y r s).edges ↔
        ¬(0 ≤ r ∧ distSqToLineSegment (nodeCenterX sn) (nodeCenterY sn)
            (nodeCenterX tn) (nodeCenterY tn) x y ≤ r * r)) := by
  refine ⟨rfl, ?_⟩
  intro e he sn tn hsn htn
  have hhits : knifeHits s.nodes x y r e =
      distLeB (distSqToLineSegment (nodeCenterX sn) (nodeCenterY sn)
        (nodeCenterX tn) (nodeCenterY tn) x y) r := by
    simp [knifeHits, hsn, htn]
  have hedges : (deleteEdgesByPosition x y r s).edges
      = s.edges.filter fun edge =>
          decide (edge.id ∉ (s.edges.filter (knifeHits s.nodes x y r)).map Edge.id) := rfl
  rw [hedges, List.mem_filter]
  simp only [he, true_and, decide_eq_true_eq]
  rw [mem_markedIds_iff s.edges _ hids e he, hhits]
  simp [distLeB]

/-- Witness for `knife_deletes_iff_within_radius` on the graph `gKnife` with
cursor `(5, 1)` and radius `2`: the near edge is deleted, the far edge is
kept. -/
theorem knife_deletes_iff_within_radius_witness :
    ePQ ∉ (deleteEdgesByPosition 5 1 2 gKnife).edges ∧
    eRS ∈ (deleteEdgesByPosition 5 1 2 gKnife).edges := by
  have h := (knife_deletes_iff_within_radius gKnife 5 1 2 (by decide)).2
  constructor
  · intro hmem
    exact (h ePQ (by decide) nP nQ (by decide) (by decide)).mp hmem
      (by norm_num [distSqToLineSegment, nodeCenterX, nodeCenterY, nP, nQ])
  · exact (h eRS (by decide) nR nS (by decide) (by decide)).mpr
      (by norm_num [distSqToLineSegment, nodeCenterX, nodeCenterY, nR, nS])

/-- C10: under unique edge ids, the knife never deletes an edge one of whose
endpoint ids matches no node, whatever the cursor and radius, and it never
modifies the node collection. -/
theorem knife_frame_missing_endpoint (s : RFState) (x y r : ℚ)
    (hids : (s.edges.map Edge.id).Nodup) :
    (deleteEdgesByPosition x y r s).nodes = s.nodes ∧
    ∀ e ∈ s.edges,
      (s.nodes.find? (fun node => decide (node.id = e.source)) = none ∨
       s.nodes.find? (fun node => decide (node.id = e.target)) = none) →
      e ∈ (deleteEdgesByPosition x y r s).edges := by
  refine ⟨rfl, ?_⟩
  intro e he hmiss
  have hhits : knifeHits s.nodes x y r e = false := by
    rcases hmiss with h1 | h1
    · simp [knifeHits, h1]
    · cases hfs : s.nodes.find? (fun node => decide (node.id = e.source)) with
      | none => simp [knifeHits, hfs]
      | some sn => simp [knifeHits, hfs, h1]
  have hedges : (deleteEdgesByPosition x y r s).edges
      = s.edges.filter fun edge =>
          decide (edge.id ∉ (s.edges.filter (knifeHits s.nodes x y r)).map Edge.id) := rfl
  rw [hedges, List.mem_filter]
  refine ⟨he, ?_⟩
  simp only [decide_eq_true_eq]
  rw [mem_markedIds_iff s.edges _ hids e he, hhits]
  simp

/-- Witness for `knife_frame_missing_endpoint`: the dangling edge of
`gKnife` survives a knife pass with a huge radius. -/
theorem knife_frame_missing_endpoint_witness :
    eDangling ∈ (deleteEdgesByPosition 5 1 1000 gKnife).edges :=
  (knife_frame_missing_endpoint gKnife 5 1 1000 (by decide)).2 eDangling
    (by decide) (Or.inr (by decide))

/-- One step of the snap scan preserves the snap invariant. -/
theorem snapStep_inv (seen : List NearPoint) (acc : Option NearPoint)
    (c : NearPoint) (h : SnapInv seen acc) :
    SnapInv (seen ++ [c]) (snapStep acc c) := by
  cases acc with
  | none =>
      simp only [SnapInv] at h
      by_cases hc : c.distanceSq < 2500
      · have hs : snapStep none c = some c := by
          simp [snapStep, closer, hc]
        rw [hs]
        simp only [SnapInv]
        refine ⟨by simp, hc, ?_⟩
        intro d hd
        rcases List.mem_append.mp hd with hd | hd
        · exact hc.le.trans (h d hd)
        · rw [List.mem_singleton.mp hd]
      · have hs : snapStep none c = none := by
          simp [snapStep, closer, hc]
        rw [hs]
        simp only [SnapInv]
        intro d hd
        rcases List.mem_append.mp hd with hd | hd
        · exact h d hd
        · rw [List.mem_singleton.mp hd]
          exact not_lt.mp hc
  | some np =>
      simp only [SnapInv] at h
      obtain ⟨hmem, hlt, hmin⟩ := h
      by_cases hcond : c.distanceSq < np.distanceSq ∧ c.distanceSq < 2500
      · have hs : snapStep (some np) c = some c := by
          simp [snapStep, closer, hcond.1, hcond.2]
        rw [hs]
        simp only [SnapInv]
        refine ⟨by simp, hcond.2, ?_⟩
        intro d hd
        rcases List.mem_append.mp hd with hd | hd
        · exact hcond.1.le.trans (hmin d hd)
        · rw [List.mem_singleton.mp hd]
      · have hs : snapStep (some np) c = some np := by
          rcases not_and_or.mp hcond with hcl | hcl
          · simp [snapStep, closer, hcl]
          · simp [snapStep, closer, hcl]
        rw [hs]
        simp only [SnapInv]
        refine ⟨List.mem_append_left _ hmem, hlt, ?_⟩
        intro d hd
        rcases List.mem_append.mp hd with hd | hd
        · exact hmin d hd
        · rw [List.mem_singleton.mp hd]
          rcases not_and_or.mp hcond with hcl | hcl
          · exact not_lt.mp hcl
          · exact hlt.le.trans (not_lt.mp hcl)

/-- The snap fold maintains the snap invariant over any candidate list. -/
theorem snapFold_inv (l : List NearPoint) :
    ∀ (seen : List NearPoint) (acc : Option NearPoint), SnapInv seen acc →
      SnapInv (seen ++ l) (l.foldl snapStep acc) := by
  induction l with
  | nil =>
      intro seen acc h
      simpa using h
  | cons c l ih =>
      intro seen acc h
      have := ih (seen ++ [c]) (snapStep acc c) (snapStep_inv seen acc c h)
      simpa using this

/-- C5: during a connection drag, the snap target offered is a candidate of
minimal Euclidean distance to the cursor among the four connection points of
every block other than the drag's source block, and it is within the snap
radius of 50 px; when no candidate is within the radius, no snap target is
offered.  Comparisons are on squared distances (`√d < 50 ↔ d < 2500`,
`√a ≤ √b ↔ a ≤ b` on nonnegative rationals). -/
theorem snap_nearest (blocks : List Block) (sourceId : String) (x y : ℚ) :
    (∀ np, nearestSnapPoint blocks sourceId x y = some np →
      np ∈ snapCandidates blocks sourceId x y ∧ np.distanceSq < 2500 ∧
      ∀ c ∈ snapCandidates blocks sourceId x y, np.distanceSq ≤ c.distanceSq) ∧
    (nearestSnapPoint blocks sourceId x y = none ↔
      ∀ c ∈ snapCandidates blocks sourceId x y, 2500 ≤ c.distanceSq) := by
  have hinv : SnapInv (snapCandidates blocks sourceId x y)
      (nearestSnapPoint blocks sourceId x y) := by
    have := snapFold_inv (snapCandidates blocks sourceId x y) [] none
      (by simp [SnapInv])
    simpa [nearestSnapPoint] using this
  constructor
  · intro np hnp
    rw [hnp] at hinv
    simpa only [SnapInv] using hinv
  · constructor
    · intro hn
      rw [hn] at hinv
      simpa only [SnapInv] using hinv
    · intro hall
      cases hcase : nearestSnapPoint blocks sourceId x y with
      | none => rfl
      | some np =>
          rw [hcase] at hinv
          simp only [SnapInv] at hinv
          exact absurd hinv.2.1 (not_lt.mpr (hall np hinv.1))

/-- Witness for `snap_nearest` at the block list `snapBlocks` with cursor
`(2, 1)`: the offered point is the top point of `b1`, within the radius. -/
theorem snap_nearest_witness :
    sampleNP ∈ snapCandidates snapBlocks "src" 2 1 ∧ sampleNP.distanceSq < 2500 :=
  have h := (snap_nearest snapBlocks "src" 2 1).1 sampleNP (by
    simp only [nearestSnapPoint]
    norm_num [snapCandidates, connectionPoints, distSqPt, snapStep, closer,
      snapBlocks, blkSrc, blkB1, blkB2, sampleNP, List.filter_cons,
      show ("b1" : String) ≠ "src" from by decide,
      show ("b2" : String) ≠ "src" from by decide,
      show ("src" : String) = "src" from rfl])
  ⟨h.1, h.2.1⟩

/-- C6 fails as stated: with nodes `A` and `B` live and the equivalent edge
`A → B` (same source, target and handles) already present, `onConnect` does
not add a new edge — reactflow's `addEdge` suppresses the duplicate, so the
edge count stays at 1 instead of increasing to 2. -/
theorem onConnect_duplicate_cex :
    nA ∈ gAB.nodes ∧ nB ∈ gAB.nodes ∧ nA.id = "A" ∧ nB.id = "B" ∧
    eAB ∈ gAB.edges ∧ eAB.source = "A" ∧ eAB.target = "B" ∧
    (onConnect ⟨some "A", some "B", none, none⟩ "fresh" gAB).edges.length
      ≠ gAB.edges.length + 1 := by decide

/-- C6 (amended): for a connection with non-falsy source and target,
`onConnect` leaves the store unchanged when an equivalent edge (same source,
same target, matching handles) already exists, and appends exactly one new
edge — raising the count by one — when no equivalent edge exists. -/
theorem onConnect_adds_unless_equivalent (s : RFState) (conn : Connection)
    (newId srcId tgtId : String) (hs : conn.source = some srcId)
    (ht : conn.target = some tgtId) (hs' : srcId ≠ "") (ht' : tgtId ≠ "") :
    (connectionExists ⟨newId, srcId, tgtId, conn.sourceHandle, conn.targetHandle⟩
        s.edges = true →
      onConnect conn newId s = s) ∧
    (connectionExists ⟨newId, srcId, tgtId, conn.sourceHandle, conn.targetHandle⟩
        s.edges = false →
      (onConnect conn newId s).edges
        = s.edges ++ [⟨newId, srcId, tgtId, conn.sourceHandle, conn.targetHandle⟩] ∧
      (onConnect conn newId s).edges.length = s.edges.length + 1) := by
  have hfalsy : (falsyStr conn.source || falsyStr conn.target) = false := by
    simp [hs, ht, falsyStr, hs', ht']
  constructor
  · intro hex
    have hadd : addEdge conn newId s.edges = s.edges := by
      rw [addEdge]
      rw [if_neg (by simp [hfalsy])]
      rw [hs, ht]
      simp [hex]
    simp [onConnect, hadd]
  · intro hex
    have hadd : addEdge conn newId s.edges
        = s.edges ++ [⟨newId, srcId, tgtId, conn.sourceHandle, conn.targetHandle⟩] := by
      rw [addEdge]
      rw [if_neg (by simp [hfalsy])]
      rw [hs, ht]
      simp [hex]
    refine ⟨by simp [onConnect, hadd], by simp [onConnect, hadd]⟩

/-- Witness for `onConnect_adds_unless_equivalent`: connecting `A → B` on
the edgeless graph appends one edge. -/
theorem onConnect_adds_unless_equivalent_witness :
    (onConnect ⟨some "A", some "B", none, none⟩ "e9" gEmptyEdges).edges.length
      = gEmptyEdges.edges.length + 1 :=
  ((onConnect_adds_unless_equivalent gEmptyEdges ⟨some "A", some "B", none, none⟩
      "e9" "A" "B" rfl rfl (by decide) (by decide)).2 (by decide)).2

/-- Every node emitted by the trace loop comes from the node list. -/
theorem traceStep_subset (nodes : List Node) (edges : List Edge) :
    ∀ (fuel : ℕ) (cur : String), ∀ n ∈ traceStep nodes edges fuel cur, n ∈ nodes := by
  intro fuel
  induction fuel with
  | zero =>
      intro cur n hn
      simp [traceStep] at hn
  | succ fuel ih =>
      intro cur n hn
      rw [traceStep] at hn
      split at hn
      · simp at hn
      · split at hn
        · split at hn
          next n2 heq =>
            rw [List.mem_singleton.mp hn]
            exact List.mem_of_find?_eq_some heq
          next => simp at hn
        · rw [List.mem_append] at hn
          rcases hn with hn | hn
          · split at hn
            next n2 heq =>
              rw [List.mem_singleton.mp hn]
              exact List.mem_of_find?_eq_some heq
            next => simp at hn
          · exact ih _ n hn

/-- Every node of the traced linear flow comes from the node list. -/
theorem traceLinearFlow_subset (nodes : List Node) (edges : List Edge) :
    ∀ n ∈ traceLinearFlow nodes edges, n ∈ nodes := by
  intro n hn
  rw [traceLinearFlow] at hn
  split at hn
  · simp at hn
  · exact traceStep_subset nodes edges _ _ n hn

/-- C8 (amended): `exportToPDF` produces a document only when either no
edges exist or `isLinearFlow` holds (the implemented degree-bucket check:
exactly one entry with in-degree 0 and out-degree 1, exactly one with
in-degree 1 and out-degree 0, all remaining entries with in-degree 1 and
out-degree 1 — a check that also admits disjoint cycles beside the chain);
when the check fails with edges present, no document is produced (blocking
message); when no edges exist, the document is a permutation of the nodes in
ascending vertical order; and every exported node comes from the graph. -/
theorem exportToPDF_amended (nodes : List Node) (edges : List Edge) :
    (∀ doc, exportToPDF nodes edges = some doc →
      doc ≠ [] ∧ (edges = [] ∨ isLinearFlow nodes edges = true) ∧
      ∀ n ∈ doc, n ∈ nodes) ∧
    (edges ≠ [] → isLinearFlow nodes edges = false →
      exportToPDF nodes edges = none) ∧
    (edges = [] → ∀ doc, exportToPDF nodes edges = some doc →
      doc.Perm nodes ∧
      doc.Pairwise fun a b => a.position.y ≤ b.position.y) := by
  refine ⟨?_, ?_, ?_⟩
  · intro doc hdoc
    rcases Nat.eq_zero_or_pos edges.length with he | he
    · have he' : edges = [] := List.length_eq_zero.mp he
      rw [exportToPDF, if_neg (by omega)] at hdoc
      split at hdoc
      · exact absurd hdoc (by simp)
      next hlen =>
        obtain rfl : sortNodesByVerticalPosition nodes = doc := Option.some.inj hdoc
        refine ⟨by simpa using hlen, Or.inl he', ?_⟩
        intro n hn
        exact (List.mergeSort_perm nodes _).mem_iff.mp hn
    · rw [exportToPDF, if_pos he] at hdoc
      by_cases hl : isLinearFlow nodes edges = true
      · rw [if_pos hl] at hdoc
        split at hdoc
        · exact absurd hdoc (by simp)
        next hlen =>
          obtain rfl : traceLinearFlow nodes edges = doc := Option.some.inj hdoc
          exact ⟨by simpa using hlen, Or.inr hl, traceLinearFlow_subset nodes edges⟩
      · rw [if_neg hl] at hdoc
        exact absurd hdoc (by simp)
  · intro hne hnl
    have he : edges.length > 0 := List.length_pos.mpr hne
    rw [exportToPDF, if_pos he, if_neg (by simp [hnl])]
  · intro he doc hdoc
    rw [exportToPDF, if_neg (by simp [he])] at hdoc
    split at hdoc
    · exact absurd hdoc (by simp)
    next hlen =>
      obtain rfl : sortNodesByVerticalPosition nodes = doc := Option.some.inj hdoc
      refine ⟨List.mergeSort_perm nodes _, ?_⟩
      have hs := @List.sorted_mergeSort Node
        (fun a b : Node => decide (a.position.y ≤ b.position.y))
        (fun a b c hab hbc => by
          simp only [decide_eq_true_eq] at hab hbc ⊢
          exact hab.trans hbc)
        (fun a b => by
          simpa using le_total a.position.y b.position.y)
        nodes
      exact hs.imp fun h => by simpa using h

/-- C8 fails as stated: on the chain `A → B` plus the disjoint two-cycle
`C ⇄ D`, the implemented linearity check passes and a document is produced
even though the graph is not a single linear chain — the cycle nodes are
silently omitted from the exported document instead of blocking the
export. -/
theorem exportToPDF_nonchain_cex :
    cexEdges ≠ [] ∧
    exportToPDF cexNodes cexEdges = some [nA, nB] ∧
    nC ∈ cexNodes ∧ nC ∉ [nA, nB] := by decide

/-- Witness for `exportToPDF_amended`: exporting two unconnected nodes
yields the list sorted by ascending vertical position, containing both. -/
theorem exportToPDF_amended_witness :
    nW2 ∈ [nW1, nW2] ∧ ([nW2, nW1] : List Node) ≠ [] :=
  have h := (exportToPDF_amended [nW1, nW2] []).1 [nW2, nW1]
    (by simp [exportToPDF, sortNodesByVerticalPosition, List.mergeSort, nW1, nW2])
  ⟨h.2.2 nW2 (by decide), h.1⟩

end Flow
